import Mathlib

/-!
Verification of the credential-to-workflow registry and the schema
conversion / dispatch pipeline of the dify-mcp-server repository.

The TypeScript sources are shallowly embedded:
* JavaScript strings are modelled as Lean `String` (a sequence of
  characters); `s.substring`, `s.split` and template literals are
  modelled on the character list `s.data`.
* JavaScript objects used as string-keyed dictionaries (`Record`,
  `Map`, plain object property assignment) are modelled as ordered
  association lists; assignment replaces the value of an existing key
  in place and appends a fresh key at the end, exactly as JS `Map.set`
  and object property assignment behave with respect to iteration
  order.
* JavaScript truthiness on optional strings (`x || d`, `if (!x)`)
  is modelled explicitly: `none` (absent / `undefined`) and the empty
  string are falsy.
* `async` calls to the remote backend are modelled by oracle
  functions returning `Option` (`none` models a thrown error), and
  observable side calls are collected in an explicit event trace.
-/

namespace DifyMCP

/-- JS truthiness of an optional string value: `undefined` and `""` are falsy. -/
def strTruthy : Option String → Bool
  | none => false
  | some s => !(s == "")

/-- JS `x || d` where `x : string | undefined` and `d` is a string default. -/
def strOrDefault (x : Option String) (d : String) : String :=
  match x with
  | none => d
  | some s => if s == "" then d else s

/-- JS `a || b` where both operands are `string | undefined`. -/
def jsOrStr (a b : Option String) : Option String :=
  match a with
  | none => b
  | some s => if s == "" then b else some s

/-- Lookup in a string-keyed association list (JS `Map.get` / property read). -/
def assocGet {α : Type} (m : List (String × α)) (k : String) : Option α :=
  match m with
  | [] => none
  | (k', v) :: rest => if k' == k then some v else assocGet rest k

/-- JS `Map.set` / object property assignment: replaces the value of an
existing key in place, appends a fresh key at the end. -/
def assocSet {α : Type} (m : List (String × α)) (k : String) (v : α) : List (String × α) :=
  match m with
  | [] => [(k, v)]
  | (k', v') :: rest => if k' == k then (k, v) :: rest else (k', v') :: assocSet rest k v

/-! ### Data model (src/types.ts) -/

/-- Response of the `/info` endpoint (`DifyInfoResponse` in src/types.ts);
optional fields model possibly-absent JSON fields. -/
structure DifyInfoResponse where
  name : Option String := none
  description : Option String := none
deriving DecidableEq

/-- One field descriptor of the `user_input_form` shape
(`DifyInputField` in src/types.ts). -/
structure DifyInputField where
  label : Option String := none
  «variable» : Option String := none
  required : Bool := false
deriving DecidableEq

/-- One component of the `user_input_form` shape: a JS object mapping
component-kind tags to field descriptors, iterated via `Object.entries`
(`DifyInputComponent` in src/types.ts). -/
abbrev DifyInputComponent := List (String × DifyInputField)

/-- One entry of the legacy `parameters` array (`DifyParameter` in
src/types.ts).  `name` is optional here because the converter checks
`!param.name` at runtime on unvalidated JSON. -/
structure DifyParameter where
  name : Option String := none
  type : Option String := none
  description : Option String := none
  required : Bool := false
deriving DecidableEq

/-- A value appearing in the legacy mapping form of `parameters`:
either a non-object (or null) JS value, or a parameter descriptor
object (its relevant fields). -/
inductive ParamValue where
  | nonObject
  | objVal (type : Option String) (description : Option String) (required : Bool)
deriving DecidableEq

/-- The `parameters` field of a `/parameters` response: either the
legacy array shape or the legacy mapping shape. -/
inductive ParametersField where
  | arr (params : List DifyParameter)
  | objMap (entries : List (String × ParamValue))
deriving DecidableEq

/-- Response of the `/parameters` endpoint (`DifyParametersResponse` in
src/types.ts): `some` models a present `user_input_form` array,
respectively a present `parameters` field. -/
structure DifyParametersResponse where
  user_input_form : Option (List DifyInputComponent) := none
  parameters : Option ParametersField := none
deriving DecidableEq

/-- One normalized property of a tool input schema. -/
structure PropEntry where
  type : String
  description : String
deriving DecidableEq

/-! ### Schema normalizer (src/dify/converter.ts) -/

/-- The `switch (componentType)` statement of
`extractPropertiesFromUserInputForm` (converter.ts, lines 28-45). -/
def componentParamType (componentType : String) : String :=
  if componentType == "select" || componentType == "radio" then "string"
  else if componentType == "checkbox" then "array"
  else if componentType == "number" || componentType == "slider" then "number"
  else if componentType == "switch" then "boolean"
  else "string"

/-- Processing of one `Object.entries` entry of one form component:
entries with a falsy `variable` are skipped with a diagnostic, others
assign `properties[paramName]` and push to `required` when flagged. -/
def processFormEntry (st : List (String × PropEntry) × List String)
    (entry : String × DifyInputField) : List (String × PropEntry) × List String :=
  match entry.2.«variable» with
  | none => st
  | some paramName =>
    if paramName == "" then st
    else
      (assocSet st.1 paramName
        { type := componentParamType entry.1
          description := strOrDefault entry.2.label paramName },
       if entry.2.required then st.2 ++ [paramName] else st.2)

/-- `extractPropertiesFromUserInputForm` (converter.ts, lines 8-57):
iterates components in order, then the entries of each component in order,
mutating the `properties` / `required` accumulators. -/
def extractPropertiesFromUserInputForm (userInputForm : List DifyInputComponent)
    (properties : List (String × PropEntry)) (required : List String) :
    List (String × PropEntry) × List String :=
  userInputForm.foldl (fun st component => component.foldl processFormEntry st)
    (properties, required)

/-- `convertParametersObjectToArray` (converter.ts, lines 62-83). -/
def convertParametersObjectToArray (parametersObj : List (String × ParamValue)) :
    List DifyParameter :=
  parametersObj.map fun kv =>
    match kv.2 with
    | .nonObject =>
        { name := some kv.1, type := some "string", description := some "", required := false }
    | .objVal t d r =>
        { name := some kv.1, type := some (strOrDefault t "string"),
          description := some (strOrDefault d ""), required := r }

/-- Processing of one legacy array entry: entries with a falsy `name`
are skipped with a diagnostic, others assign `properties[param.name]`
and push to `required` when flagged. -/
def processParamEntry (st : List (String × PropEntry) × List String)
    (param : DifyParameter) : List (String × PropEntry) × List String :=
  match param.name with
  | none => st
  | some n =>
    if n == "" then st
    else
      (assocSet st.1 n
        { type := strOrDefault param.type "string"
          description := strOrDefault param.description "" },
       if param.required then st.2 ++ [n] else st.2)

/-- `extractPropertiesFromParametersArray` (converter.ts, lines 88-108). -/
def extractPropertiesFromParametersArray (parameters : List DifyParameter)
    (properties : List (String × PropEntry)) (required : List String) :
    List (String × PropEntry) × List String :=
  parameters.foldl processParamEntry (properties, required)

/-- `extractPropertiesFromParameters` (converter.ts, lines 113-147):
prefer the `user_input_form` shape, else the legacy `parameters` shape
(converting the mapping form to the array form first), else empty. -/
def extractPropertiesFromParameters (paramsData : DifyParametersResponse) :
    List (String × PropEntry) × List String :=
  match paramsData.user_input_form with
  | some form => extractPropertiesFromUserInputForm form [] []
  | none =>
    match paramsData.parameters with
    | some (.arr params) => extractPropertiesFromParametersArray params [] []
    | some (.objMap entries) =>
        extractPropertiesFromParametersArray (convertParametersObjectToArray entries) [] []
    | none => ([], [])

/-! ### Tool-name deduplication and tool construction (src/dify/converter.ts) -/

/-- Digit characters of a positive natural number, most significant
first; the fuel argument (any value `≥ n`) makes the recursion
structural. -/
def natToDecimalAux : Nat → Nat → List Char
  | 0, _ => []
  | fuel + 1, n => if n = 0 then [] else natToDecimalAux fuel (n / 10) ++ [Nat.digitChar (n % 10)]

/-- Decimal string of a natural number, modelling the JS number-to-string
conversion performed by the template literal in `getUniqueWorkflowName`. -/
def natToDecimal (n : Nat) : String :=
  if n = 0 then "0" else ⟨natToDecimalAux n n⟩

/-- The template literal `` `${baseName}-${counter}` ``. -/
def suffixedName (baseName : String) (counter : Nat) : String :=
  baseName ++ "-" ++ natToDecimal counter

/-- The `while (workflowNames.has(...)) counter++` loop of
`getUniqueWorkflowName` (converter.ts, lines 156-159), with explicit
fuel; `workflowNames.length + 1` units of fuel always suffice to find a
free suffix (see `findFreeCounter_spec` and `exists_free_counter`). -/
def findFreeCounter (baseName : String) (workflowNames : List String) :
    Nat → Nat → Nat
  | 0, counter => counter
  | fuel + 1, counter =>
    if suffixedName baseName counter ∈ workflowNames then
      findFreeCounter baseName workflowNames fuel (counter + 1)
    else counter

/-- `getUniqueWorkflowName` (converter.ts, lines 152-164): return the
base name when unused, otherwise the base name with the first unused
integer suffix, starting at 1. -/
def getUniqueWorkflowName (baseName : String) (workflowNames : List String) : String :=
  if baseName ∈ workflowNames then
    suffixedName baseName
      (findFreeCounter baseName workflowNames (workflowNames.length + 1) 1)
  else baseName

/-- The fixed outer `inputSchema` object of a tool. -/
structure ToolInputSchema where
  type : String
  properties : List (String × PropEntry)
  required : List String
deriving DecidableEq

/-- An MCP tool record as built by the converter. -/
structure Tool where
  name : String
  description : String
  inputSchema : ToolInputSchema
deriving DecidableEq

/-- `WorkflowData` (src/dify/service.ts, lines 25-29). -/
structure WorkflowData where
  apiKey : String
  infoData : DifyInfoResponse
  paramsData : DifyParametersResponse
deriving DecidableEq

/-- One iteration of the `workflowDataList.forEach` loop of
`convertDifyWorkflowToMCPTools` (converter.ts, lines 174-196); the
accumulator carries the `tools` array and the `workflowNames` set
(modelled as the list of inserted names). -/
def convertStep (acc : List Tool × List String) (workflowData : WorkflowData) :
    List Tool × List String :=
  let baseName := strOrDefault workflowData.infoData.name "dify-workflow"
  let toolName := getUniqueWorkflowName baseName acc.2
  let extracted := extractPropertiesFromParameters workflowData.paramsData
  (acc.1 ++ [{ name := toolName
               description := strOrDefault workflowData.infoData.description
                 "Execute Dify Workflow"
               inputSchema := { type := "object"
                                properties := extracted.1
                                required := extracted.2 } }],
   acc.2 ++ [toolName])

/-- The full loop state of `convertDifyWorkflowToMCPTools`. -/
def convertAcc (workflowDataList : List WorkflowData) : List Tool × List String :=
  workflowDataList.foldl convertStep ([], [])

/-- `convertDifyWorkflowToMCPTools` (converter.ts, lines 169-199). -/
def convertDifyWorkflowToMCPTools (workflowDataList : List WorkflowData) : List Tool :=
  (convertAcc workflowDataList).1

/-! ### The registry service (src/dify/service.ts) -/

/-- The backend connector for discovery, as seen by `DifyService`:
`fetchInfo` and `fetchParameters` against one credential.  `none`
models a thrown error (network failure, non-success HTTP status, or
unparseable body). -/
structure DifyClientOracle where
  fetchInfo : String → Option DifyInfoResponse
  fetchParameters : String → Option DifyParametersResponse

/-- `Config` as consumed by the service (src/config.ts `EnvConfig`):
the base URL and the ordered credential list. -/
structure Config where
  baseUrl : String
  apiKeys : List String

/-- `EnvConfig.validate` (src/config.ts): fails on a falsy base URL or
an empty credential list. -/
def Config.validate (config : Config) : Bool :=
  !(config.baseUrl == "") && !(config.apiKeys.isEmpty)

/-- `DifyService.fetchWorkflowInfoWithKey` (service.ts, lines 70-87):
fetch `/info` then `/parameters`; the first failure aborts this
credential. -/
def fetchWorkflowInfoWithKey (client : DifyClientOracle) (apiKey : String) :
    Option (DifyInfoResponse × DifyParametersResponse) :=
  match client.fetchInfo apiKey with
  | none => none
  | some infoData =>
    match client.fetchParameters apiKey with
    | none => none
    | some paramsData => some (infoData, paramsData)

/-- The base tool name under which a successfully discovered credential
is registered: `result.infoData.name || "dify-workflow"` (service.ts,
line 129); `none` when discovery of the credential fails. -/
def discoveredBase (client : DifyClientOracle) (apiKey : String) : Option String :=
  (fetchWorkflowInfoWithKey client apiKey).map fun r => strOrDefault r.1.name "dify-workflow"

/-- Mutable state of `DifyService.processBatchApiKeys` (service.ts,
lines 117-145): the name-to-credential map, the `results` array and the
success / failure counters. -/
structure BatchState where
  workflowApiKeyMap : List (String × String)
  results : List WorkflowData
  success : Nat
  failed : Nat
deriving DecidableEq

/-- One iteration of the `for (const apiKey of apiKeys)` loop of
`processBatchApiKeys`: on success, `registerWorkflow` stores the base
name (service.ts, lines 129, 151-153) and the result is pushed; on
failure only the counter moves. -/
def processOneApiKey (client : DifyClientOracle) (st : BatchState) (apiKey : String) :
    BatchState :=
  match fetchWorkflowInfoWithKey client apiKey with
  | some r =>
    { st with
      workflowApiKeyMap :=
        assocSet st.workflowApiKeyMap (strOrDefault r.1.name "dify-workflow") apiKey
      results := st.results ++ [{ apiKey := apiKey, infoData := r.1, paramsData := r.2 }]
      success := st.success + 1 }
  | none => { st with failed := st.failed + 1 }

/-- `DifyService.processBatchApiKeys` (service.ts, lines 117-145). -/
def processBatchApiKeys (client : DifyClientOracle) (apiKeys : List String)
    (st : BatchState) : BatchState :=
  apiKeys.foldl (processOneApiKey client) st

/-- Errors surfaced by the service, named after §7 of the spec. -/
inductive ServiceError where
  | configurationInvalid
  | noApiKeysConfigured
  | noBackendsAvailable
  | workflowNotFound (workflowName : String)
  | backendError
deriving DecidableEq

/-- `DifyService.fetchAllWorkflowInfo` (service.ts, lines 92-111):
validate the configuration, fail when no credential is configured,
process every credential, fail with the aggregate error when no
credential succeeded.  Returns the outcome together with the final
name-to-credential map (which starts as `initialMap`, the constructor
default being empty). -/
def fetchAllWorkflowInfo (client : DifyClientOracle) (config : Config)
    (initialMap : List (String × String)) :
    Except ServiceError (List WorkflowData) × List (String × String) :=
  if !config.validate then (Except.error .configurationInvalid, initialMap)
  else if config.apiKeys.isEmpty then (Except.error .noApiKeysConfigured, initialMap)
  else
    let st := processBatchApiKeys client config.apiKeys
      { workflowApiKeyMap := initialMap, results := [], success := 0, failed := 0 }
    if st.results.isEmpty then (Except.error .noBackendsAvailable, st.workflowApiKeyMap)
    else (Except.ok st.results, st.workflowApiKeyMap)

/-- `workflowName.split('-')[0]` (service.ts, line 189): the characters
before the first `'-'`, the whole string when it contains none. -/
def splitBaseName (workflowName : String) : String :=
  ⟨workflowName.data.takeWhile (fun c => !(c == '-'))⟩

/-- `DifyService.getApiKeyForWorkflow` (service.ts, lines 187-193):
look up the hyphen-stripped base name first, fall back to the exact
name (`||` with JS string truthiness). -/
def getApiKeyForWorkflow (workflowApiKeyMap : List (String × String))
    (workflowName : String) : Option String :=
  jsOrStr (assocGet workflowApiKeyMap (splitBaseName workflowName))
    (assocGet workflowApiKeyMap workflowName)

/-- Observable remote calls made while serving one invocation. -/
inductive ServiceEvent where
  | clientRunWorkflow (apiKey : String)
deriving DecidableEq

/-- `DifyService.runWorkflow` (service.ts, lines 172-181) together with
`runWorkflowWithKey` (lines 158-167): resolve the credential, fail with
the workflow-not-found error when the resolved value is falsy without
touching the client, otherwise call `client.runWorkflow` with the
resolved credential.  `runOracle` models `client.runWorkflow`
(`none` = thrown backend error, which is rethrown); the returned trace
records every client call made. -/
def runWorkflow {ρ : Type} (runOracle : String → Option ρ)
    (workflowApiKeyMap : List (String × String)) (workflowName : String) :
    Except ServiceError ρ × List ServiceEvent :=
  match getApiKeyForWorkflow workflowApiKeyMap workflowName with
  | none => (Except.error (.workflowNotFound workflowName), [])
  | some apiKey =>
    if apiKey == "" then (Except.error (.workflowNotFound workflowName), [])
    else
      match runOracle apiKey with
      | some response => (Except.ok response, [.clientRunWorkflow apiKey])
      | none => (Except.error .backendError, [.clientRunWorkflow apiKey])

/-! ### Output extraction (src/dify/workflow.ts) -/

/-- A JSON value as produced by `JSON.parse`, with its JS truthiness. -/
inductive Json where
  | null
  | bool (b : Bool)
  | num (n : Int)
  | str (s : String)
  | arr (elems : List Json)
  | obj (fields : List (String × Json))

/-- JS truthiness of a JSON value (`null`, `false`, `0` and `""` are
falsy; arrays and objects are always truthy). -/
def Json.truthy : Json → Bool
  | .null => false
  | .bool b => b
  | .num n => !(n == 0)
  | .str s => !(s == "")
  | .arr _ => true
  | .obj _ => true

/-- JS truthiness of a possibly-absent JSON value. -/
def jsTruthyOpt : Option Json → Bool
  | none => false
  | some j => j.truthy

/-- The `data` object of a workflow-run response (the fields other than
`outputs` are irrelevant to output extraction). -/
structure DifyWorkflowRunData where
  outputs : Option Json := none

/-- `DifyWorkflowResponse` (src/types.ts), restricted to the fields read
by `extractOutputContent`. -/
structure DifyWorkflowResponse where
  data : Option DifyWorkflowRunData := none
  result : Option Json := none

/-- Result of output extraction: either a field value or the raw
response object unchanged. -/
inductive OutputContent where
  | value (j : Json)
  | raw (response : DifyWorkflowResponse)

/-- `WorkflowManager.extractOutputContent` (workflow.ts, lines 83-86):
`result.data?.outputs || result.result || result` with JS truthiness. -/
def extractOutputContent (result : DifyWorkflowResponse) : OutputContent :=
  let dataOutputs := result.data.bind fun d => d.outputs
  if jsTruthyOpt dataOutputs then .value (dataOutputs.getD .null)
  else if jsTruthyOpt result.result then .value (result.result.getD .null)
  else .raw result

/-! ### Backend connector diagnostics (src/dify/client.ts) -/

/-- `DifyApiClient.maskApiKey` (client.ts, lines 87-92): the fixed
placeholder for credentials of 8 characters or fewer, otherwise the
first 4 and last 4 characters around a `"..."` separator. -/
def maskApiKey (apiKey : String) : String :=
  if apiKey.length ≤ 8 then "********"
  else ⟨apiKey.data.take 4⟩ ++ "..." ++ ⟨apiKey.data.drop (apiKey.data.length - 4)⟩

/-- The diagnostic lines emitted by `DifyApiClient.handleApiResponseError`
(client.ts, lines 95-108), in order. -/
def handleApiResponseErrorLogs (endpoint : String) (status : Nat)
    (statusText errorText apiKey : String) : List String :=
  [ endpoint ++ " API error code: " ++ natToDecimal status,
    endpoint ++ " API error message: " ++ statusText,
    endpoint ++ " API error response: " ++ errorText,
    "API Key (masked): " ++ maskApiKey apiKey ]

/-! ### The dispatcher (src/server.ts) -/

/-- A call-tool request as read by `handleCallToolRequest`:
`request.params.name` and the possibly-absent `request.params.arguments`. -/
structure CallToolRequest where
  name : String
  arguments : Option (List (String × Json))

/-- Errors thrown by `handleCallToolRequest`; the missing-arguments
error carries the raw request, whose JSON serialization is embedded in
the thrown message. -/
inductive CallToolError where
  | missingArguments (toolName : String) (request : CallToolRequest)
  | executionError (toolName : String)

/-- Observable delegations made by the dispatcher. -/
inductive DispatchEvent where
  | executeWorkflow (toolName : String) (params : List (String × Json))

/-- `handleCallToolRequest` (server.ts, lines 64-99): fail when
`arguments` is `undefined` (before any delegation), otherwise delegate
to `workflowManager.executeWorkflow` — modelled by the `exec` oracle —
and return its output (the protocol text-envelope shaping of the output
is not modelled; no claim concerns it).  The trace records every
delegation. -/
def handleCallToolRequest (exec : String → List (String × Json) → Option OutputContent)
    (request : CallToolRequest) :
    Except CallToolError OutputContent × List DispatchEvent :=
  match request.arguments with
  | none => (Except.error (.missingArguments request.name request), [])
  | some workflowParams =>
    match exec request.name workflowParams with
    | some outputContent =>
        (Except.ok outputContent, [.executeWorkflow request.name workflowParams])
    | none =>
        (Except.error (.executionError request.name),
         [.executeWorkflow request.name workflowParams])

/-! ### Derived notions used in the statements below -/

/-- The keys of an association list, in iteration order. -/
def assocKeys {α : Type} (m : List (String × α)) : List String := m.map Prod.fst

/-- The names of the tools produced by the converter, in order. -/
def toolNames (workflowDataList : List WorkflowData) : List String :=
  (convertDifyWorkflowToMCPTools workflowDataList).map Tool.name

/-- The base tool name derived from a discovery result:
`infoData.name || "dify-workflow"`. -/
def baseNameOf (workflowData : WorkflowData) : String :=
  strOrDefault workflowData.infoData.name "dify-workflow"

/-- The batch state at the start of discovery: the service constructor
default is an empty map. -/
def initialBatchState : BatchState :=
  { workflowApiKeyMap := [], results := [], success := 0, failed := 0 }

/-- A backend connector whose every credential reports the descriptor
name `"foo"` and an empty parameter response (used as a concrete
discovery scenario). -/
def clientFoo : DifyClientOracle :=
  { fetchInfo := fun _ => some { name := some "foo" }
    fetchParameters := fun _ => some {} }

/-- A backend connector whose every credential reports the hyphenated
descriptor name `"my-flow"`. -/
def clientMyFlow : DifyClientOracle :=
  { fetchInfo := fun _ => some { name := some "my-flow" }
    fetchParameters := fun _ => some {} }

/-- A configuration with two credentials. -/
def configTwoKeys : Config :=
  { baseUrl := "https://dify.example", apiKeys := ["k1", "k2"] }

/-- A backend connector for which every remote fetch fails. -/
def clientDown : DifyClientOracle :=
  { fetchInfo := fun _ => none, fetchParameters := fun _ => none }

/-- A workflow-run response whose `result` field is present but holds
the empty string (falsy in JS), with no `data` field. -/
def respFalsyResult : DifyWorkflowResponse :=
  { data := none, result := some (.str "") }

/-- A discovery result whose backend reports the name `"foo"` and no
parameters. -/
def wdFoo : WorkflowData :=
  { apiKey := "k", infoData := { name := some "foo" }, paramsData := {} }

/-! ### Association-list lemmas -/

theorem assocGet_assocSet_self {α : Type} (m : List (String × α)) (k : String) (v : α) :
    assocGet (assocSet m k v) k = some v := by
  induction m with
  | nil => simp [assocGet, assocSet]
  | cons hd tl ih =>
    obtain ⟨k', v'⟩ := hd
    by_cases h : k' = k
    · simp [assocSet, assocGet, h]
    · simp [assocSet, assocGet, h, ih]

theorem assocGet_assocSet_ne {α : Type} (m : List (String × α)) (k k' : String) (v : α)
    (h : k ≠ k') : assocGet (assocSet m k v) k' = assocGet m k' := by
  induction m with
  | nil => simp [assocGet, assocSet, h]
  | cons hd tl ih =>
    obtain ⟨k₀, v₀⟩ := hd
    by_cases h0 : k₀ = k
    · subst h0
      simp [assocSet, assocGet, h]
    · simp only [assocSet, assocGet]
      rw [if_neg (by simpa using h0)]
      by_cases h1 : k₀ = k'
      · simp [assocGet, h1]
      · simp [assocGet, h1, ih]

theorem mem_assocKeys_assocSet {α : Type} (m : List (String × α)) (k x : String) (v : α) :
    x ∈ assocKeys (assocSet m k v) ↔ x = k ∨ x ∈ assocKeys m := by
  induction m with
  | nil => simp [assocSet, assocKeys, eq_comm]
  | cons hd tl ih =>
    obtain ⟨k₀, v₀⟩ := hd
    by_cases h0 : k₀ = k
    · subst h0
      simp [assocSet, assocKeys, eq_comm]
    · simp only [assocSet]
      rw [if_neg (by simpa using h0)]
      simp only [assocKeys, List.map_cons, List.mem_cons] at ih ⊢
      rw [ih]
      tauto

theorem assocKeys_nodup_assocSet {α : Type} (m : List (String × α)) (k : String) (v : α)
    (h : (assocKeys m).Nodup) : (assocKeys (assocSet m k v)).Nodup := by
  induction m with
  | nil => simp [assocSet, assocKeys]
  | cons hd tl ih =>
    obtain ⟨k₀, v₀⟩ := hd
    simp only [assocKeys, List.map_cons, List.nodup_cons] at h
    by_cases h0 : k₀ = k
    · subst h0
      simpa [assocSet, assocKeys] using h
    · simp only [assocSet]
      rw [if_neg (by simpa using h0)]
      simp only [assocKeys, List.map_cons, List.nodup_cons]
      refine ⟨?_, ih h.2⟩
      intro hmem
      rcases (mem_assocKeys_assocSet tl k k₀ v).mp hmem with h1 | h1
      · exact h0 h1
      · exact h.1 h1

theorem assocGet_isSome_iff {α : Type} (m : List (String × α)) (k : String) :
    (assocGet m k).isSome ↔ k ∈ assocKeys m := by
  induction m with
  | nil => simp [assocGet, assocKeys]
  | cons hd tl ih =>
    obtain ⟨k₀, v₀⟩ := hd
    by_cases h0 : k₀ = k
    · simp [assocGet, assocKeys, h0]
    · simp [assocGet, assocKeys, h0, ih, Ne.symm h0]

/-! ### Decimal representation lemmas -/

theorem natToDecimalAux_eq : ∀ (fuel n : Nat), n ≤ fuel →
    natToDecimalAux fuel n = ((Nat.digits 10 n).map Nat.digitChar).reverse := by
  intro fuel
  induction fuel with
  | zero =>
    intro n hn
    have h0 : n = 0 := by omega
    subst h0
    simp [natToDecimalAux]
  | succ fuel ih =>
    intro n hn
    by_cases h0 : n = 0
    · subst h0
      simp [natToDecimalAux]
    · have hdiv : n / 10 < n := Nat.div_lt_self (Nat.pos_of_ne_zero h0) (by norm_num)
      rw [natToDecimalAux, if_neg h0, ih (n / 10) (by omega),
        Nat.digits_def' (by norm_num : (1 : Nat) < 10) (Nat.pos_of_ne_zero h0)]
      simp

theorem natToDecimal_data (n : Nat) :
    (natToDecimal n).data =
      if n = 0 then ['0'] else ((Nat.digits 10 n).map Nat.digitChar).reverse := by
  by_cases h0 : n = 0
  · subst h0
    simp [natToDecimal]
  · simp only [natToDecimal, if_neg h0]
    exact natToDecimalAux_eq n n le_rfl

theorem digitChar_inj_lt : ∀ a, a < 10 → ∀ c, c < 10 → Nat.digitChar a = Nat.digitChar c →
    a = c := by decide

theorem map_digitChar_inj : ∀ (l₁ l₂ : List Nat), (∀ d ∈ l₁, d < 10) → (∀ d ∈ l₂, d < 10) →
    l₁.map Nat.digitChar = l₂.map Nat.digitChar → l₁ = l₂ := by
  intro l₁
  induction l₁ with
  | nil =>
    intro l₂ _ _ h
    cases l₂ with
    | nil => rfl
    | cons c l => simp at h
  | cons a l ih =>
    intro l₂ h1 h2 h
    cases l₂ with
    | nil => simp at h
    | cons c l' =>
      simp only [List.map_cons, List.cons.injEq] at h
      have ha : a = c :=
        digitChar_inj_lt a (h1 a (by simp)) c (h2 c (by simp)) h.1
      have hl : l = l' :=
        ih l' (fun d hd => h1 d (by simp [hd])) (fun d hd => h2 d (by simp [hd])) h.2
      rw [ha, hl]

theorem digits_map_eq_zero_char (n : Nat) (h : (Nat.digits 10 n).map Nat.digitChar = ['0']) :
    n = 0 := by
  rcases hd : Nat.digits 10 n with _ | ⟨d, ds⟩
  · exact Nat.digits_eq_nil_iff_eq_zero.mp hd
  · rw [hd] at h
    simp only [List.map_cons, List.cons.injEq] at h
    have hds : ds = [] := List.map_eq_nil_iff.mp h.2
    have hd10 : d < 10 :=
      Nat.digits_lt_base (by norm_num) (by rw [hd, hds]; simp)
    have hd0 : d = 0 := digitChar_inj_lt d hd10 0 (by norm_num) h.1
    have := Nat.ofDigits_digits 10 n
    rw [hd, hds, hd0] at this
    simpa [Nat.ofDigits_cons, Nat.ofDigits_nil] using this.symm

theorem natToDecimal_inj : Function.Injective natToDecimal := by
  intro m n h
  have hd : (natToDecimal m).data = (natToDecimal n).data := by rw [h]
  rw [natToDecimal_data, natToDecimal_data] at hd
  by_cases hm : m = 0 <;> by_cases hn : n = 0
  · omega
  · exfalso
    rw [if_pos hm, if_neg hn] at hd
    exact hn (digits_map_eq_zero_char n (by simpa using List.reverse_eq_iff.mp hd.symm))
  · exfalso
    rw [if_neg hm, if_pos hn] at hd
    exact hm (digits_map_eq_zero_char m (by simpa using List.reverse_eq_iff.mp hd))
  · rw [if_neg hm, if_neg hn, List.reverse_inj] at hd
    have : Nat.digits 10 m = Nat.digits 10 n :=
      map_digitChar_inj _ _ (fun d hdm => Nat.digits_lt_base (by norm_num) hdm)
        (fun d hdn => Nat.digits_lt_base (by norm_num) hdn) hd
    exact Nat.digits_inj_iff.mp this

theorem suffixedName_inj (b : String) (k₁ k₂ : Nat)
    (h : suffixedName b k₁ = suffixedName b k₂) : k₁ = k₂ := by
  apply natToDecimal_inj
  apply String.ext
  have h' := congrArg String.data h
  simp only [suffixedName, String.data_append, List.append_assoc] at h'
  exact List.append_cancel_left (List.append_cancel_left h')

/-! ### Free-suffix search lemmas -/

theorem findFreeCounter_spec (b : String) (names : List String) :
    ∀ (fuel c : Nat), (∃ k, k < fuel ∧ suffixedName b (c + k) ∉ names) →
      suffixedName b (findFreeCounter b names fuel c) ∉ names ∧
      c ≤ findFreeCounter b names fuel c ∧
      ∀ j, c ≤ j → j < findFreeCounter b names fuel c → suffixedName b j ∈ names := by
  intro fuel
  induction fuel with
  | zero =>
    intro c h
    obtain ⟨k, hk, _⟩ := h
    omega
  | succ fuel ih =>
    intro c h
    by_cases hc : suffixedName b c ∈ names
    · have hstep : findFreeCounter b names (fuel + 1) c = findFreeCounter b names fuel (c + 1) := by
        simp [findFreeCounter, hc]
      obtain ⟨k, hk, hfree⟩ := h
      have hk0 : k ≠ 0 := by
        intro h0
        rw [h0, Nat.add_zero] at hfree
        exact hfree hc
      obtain ⟨k', rfl⟩ : ∃ k', k = k' + 1 := ⟨k - 1, by omega⟩
      have hex : ∃ k, k < fuel ∧ suffixedName b (c + 1 + k) ∉ names :=
        ⟨k', by omega, by rw [show c + 1 + k' = c + (k' + 1) by omega]; exact hfree⟩
      obtain ⟨h1, h2, h3⟩ := ih (c + 1) hex
      rw [hstep]
      refine ⟨h1, by omega, ?_⟩
      intro j hcj hj
      by_cases hjc : j = c
      · rw [hjc]; exact hc
      · exact h3 j (by omega) hj
    · have hstep : findFreeCounter b names (fuel + 1) c = c := by
        simp [findFreeCounter, hc]
      rw [hstep]
      exact ⟨hc, le_rfl, fun j h1 h2 => by omega⟩

theorem exists_free_counter (b : String) (names : List String) :
    ∃ k, k < names.length + 1 ∧ suffixedName b (1 + k) ∉ names := by
  by_contra hall
  push_neg at hall
  have hinj : Function.Injective fun k : Nat => suffixedName b (1 + k) := by
    intro k₁ k₂ h
    have := suffixedName_inj b (1 + k₁) (1 + k₂) h
    omega
  have hnodup : ((List.range (names.length + 1)).map fun k => suffixedName b (1 + k)).Nodup :=
    (List.nodup_range _).map hinj
  have hsub : ((List.range (names.length + 1)).map
      fun k => suffixedName b (1 + k)).toFinset ⊆ names.toFinset := by
    intro x hx
    rw [List.mem_toFinset] at hx ⊢
    obtain ⟨k, hk, rfl⟩ := List.mem_map.mp hx
    exact hall k (List.mem_range.mp hk)
  have h1 : ((List.range (names.length + 1)).map
      fun k => suffixedName b (1 + k)).toFinset.card = names.length + 1 := by
    rw [List.toFinset_card_of_nodup hnodup, List.length_map, List.length_range]
  have h2 := Finset.card_le_card hsub
  have h3 := List.toFinset_card_le names
  omega

theorem getUniqueWorkflowName_not_mem (b : String) (names : List String) :
    getUniqueWorkflowName b names ∉ names := by
  by_cases hb : b ∈ names
  · rw [getUniqueWorkflowName, if_pos hb]
    have hex : ∃ k, k < names.length + 1 ∧ suffixedName b (1 + k) ∉ names :=
      exists_free_counter b names
    exact (findFreeCounter_spec b names (names.length + 1) 1 hex).1
  · rw [getUniqueWorkflowName, if_neg hb]
    exact hb

theorem getUniqueWorkflowName_of_mem (b : String) (names : List String) (hb : b ∈ names) :
    ∃ k, 1 ≤ k ∧ getUniqueWorkflowName b names = suffixedName b k ∧
      suffixedName b k ∉ names ∧ ∀ j, 1 ≤ j → j < k → suffixedName b j ∈ names := by
  rw [getUniqueWorkflowName, if_pos hb]
  obtain ⟨h1, h2, h3⟩ :=
    findFreeCounter_spec b names (names.length + 1) 1 (exists_free_counter b names)
  exact ⟨findFreeCounter b names (names.length + 1) 1, h2, rfl, h1, h3⟩

theorem getUniqueWorkflowName_eq_or_mem (b : String) (names : List String) :
    getUniqueWorkflowName b names = b ∨ b ∈ names := by
  by_cases hb : b ∈ names
  · exact Or.inr hb
  · rw [getUniqueWorkflowName, if_neg hb]
    exact Or.inl rfl

/-! ### Hyphen-splitting lemmas -/

theorem takeWhile_append_fail {p : Char → Bool} (l : List Char) (x : Char) (r : List Char)
    (hl : ∀ c ∈ l, p c) (hx : p x = false) : (l ++ x :: r).takeWhile p = l := by
  induction l with
  | nil => simp [List.takeWhile_cons, hx]
  | cons a as ih =>
    have ha : p a := hl a (by simp)
    simp only [List.cons_append, List.takeWhile_cons, ha, if_true]
    rw [ih fun c hc => hl c (by simp [hc])]

theorem takeWhile_no_hyphen (l : List Char) (h : '-' ∉ l) :
    l.takeWhile (fun c => !(c == '-')) = l := by
  induction l with
  | nil => simp
  | cons a as ih =>
    simp only [List.mem_cons, not_or] at h
    simp only [List.takeWhile_cons]
    rw [if_pos (by simpa using Ne.symm h.1), ih h.2]

theorem splitBaseName_eq_self (b : String) (h : '-' ∉ b.data) : splitBaseName b = b := by
  rw [splitBaseName, takeWhile_no_hyphen b.data h]

theorem splitBaseName_suffixed (b : String) (k : Nat) (h : '-' ∉ b.data) :
    splitBaseName (suffixedName b k) = b := by
  have hdata : (suffixedName b k).data = b.data ++ '-' :: (natToDecimal k).data := by
    simp [suffixedName, String.data_append]
  rw [splitBaseName, hdata,
    takeWhile_append_fail b.data '-' (natToDecimal k).data
      (fun c hc => by
        have hne : c ≠ '-' := fun he => h (he ▸ hc)
        simpa using hne)
      (by simp)]

/-! ### Converter loop lemmas -/

theorem convertStep_fst (acc : List Tool × List String) (wd : WorkflowData) :
    (convertStep acc wd).1 = acc.1 ++
      [{ name := getUniqueWorkflowName (baseNameOf wd) acc.2
         description := strOrDefault wd.infoData.description "Execute Dify Workflow"
         inputSchema := { type := "object"
                          properties := (extractPropertiesFromParameters wd.paramsData).1
                          required := (extractPropertiesFromParameters wd.paramsData).2 } }] := rfl

theorem convertStep_snd (acc : List Tool × List String) (wd : WorkflowData) :
    (convertStep acc wd).2 = acc.2 ++ [getUniqueWorkflowName (baseNameOf wd) acc.2] := rfl

theorem convertFold_names : ∀ (wdl : List WorkflowData) (t : List Tool) (n : List String),
    n = t.map Tool.name →
    (wdl.foldl convertStep (t, n)).2 = (wdl.foldl convertStep (t, n)).1.map Tool.name := by
  intro wdl
  induction wdl with
  | nil => intro t n h; simpa using h
  | cons wd ws ih =>
    intro t n h
    rw [List.foldl_cons]
    have hstep : convertStep (t, n) wd =
        ((convertStep (t, n) wd).1, (convertStep (t, n) wd).2) := rfl
    rw [hstep]
    apply ih
    rw [convertStep_fst, convertStep_snd, List.map_append, h]
    rfl

theorem convertAcc_snd (wdl : List WorkflowData) : (convertAcc wdl).2 = toolNames wdl := by
  have := convertFold_names wdl [] [] rfl
  simpa [convertAcc, toolNames, convertDifyWorkflowToMCPTools] using this

theorem nodup_concat {α : Type} (l : List α) (x : α) (hx : x ∉ l) (hl : l.Nodup) :
    (l ++ [x]).Nodup := by
  simp [List.nodup_append, hl, hx]

theorem convertFold_nodup : ∀ (wdl : List WorkflowData) (t : List Tool) (n : List String),
    n = t.map Tool.name → n.Nodup →
    ((wdl.foldl convertStep (t, n)).1.map Tool.name).Nodup := by
  intro wdl
  induction wdl with
  | nil => intro t n h hn; rw [List.foldl_nil]; rw [← h]; exact hn
  | cons wd ws ih =>
    intro t n h hn
    rw [List.foldl_cons]
    have hstep : convertStep (t, n) wd =
        ((convertStep (t, n) wd).1, (convertStep (t, n) wd).2) := rfl
    rw [hstep]
    apply ih
    · rw [convertStep_fst, convertStep_snd, List.map_append, h]
      rfl
    · rw [convertStep_snd]
      exact nodup_concat n _ (getUniqueWorkflowName_not_mem _ n) hn

theorem toolNames_nodup (wdl : List WorkflowData) : (toolNames wdl).Nodup := by
  have := convertFold_nodup wdl [] [] rfl List.nodup_nil
  simpa [toolNames, convertDifyWorkflowToMCPTools, convertAcc] using this

theorem mem_convertFold_names_mono :
    ∀ (wdl : List WorkflowData) (acc : List Tool × List String) (x : String),
    x ∈ acc.2 → x ∈ (wdl.foldl convertStep acc).2 := by
  intro wdl
  induction wdl with
  | nil => intro acc x hx; simpa using hx
  | cons wd ws ih =>
    intro acc x hx
    rw [List.foldl_cons]
    apply ih
    rw [convertStep_snd]
    exact List.mem_append_left _ hx

theorem base_mem_convertFold :
    ∀ (wdl : List WorkflowData) (acc : List Tool × List String) (wd : WorkflowData),
    wd ∈ wdl → baseNameOf wd ∈ (wdl.foldl convertStep acc).2 := by
  intro wdl
  induction wdl with
  | nil => intro acc wd h; simp at h
  | cons w ws ih =>
    intro acc wd h
    rcases List.mem_cons.mp h with h1 | h1
    · subst h1
      rw [List.foldl_cons]
      apply mem_convertFold_names_mono
      rw [convertStep_snd]
      rcases getUniqueWorkflowName_eq_or_mem (baseNameOf wd) acc.2 with h2 | h2
      · exact List.mem_append_right _ (by simp [h2])
      · exact List.mem_append_left _ h2
    · rw [List.foldl_cons]
      exact ih _ wd h1

theorem base_mem_toolNames (wdl : List WorkflowData) (wd : WorkflowData) (h : wd ∈ wdl) :
    baseNameOf wd ∈ toolNames wdl := by
  have := base_mem_convertFold wdl ([], []) wd h
  rwa [← convertAcc_snd]

/-! ### Discovery batch lemmas -/

theorem processOneApiKey_map_get (client : DifyClientOracle) (st : BatchState)
    (apiKey b : String) :
    assocGet (processOneApiKey client st apiKey).workflowApiKeyMap b =
      (([apiKey].find? fun k => discoveredBase client k == some b).or
        (assocGet st.workflowApiKeyMap b)) := by
  rcases hf : fetchWorkflowInfoWithKey client apiKey with _ | r
  · simp [processOneApiKey, hf, List.find?, discoveredBase]
  · simp only [processOneApiKey, hf]
    by_cases hb : strOrDefault r.1.name "dify-workflow" = b
    · rw [hb, assocGet_assocSet_self]
      simp [List.find?, discoveredBase, hf, hb]
    · rw [assocGet_assocSet_ne _ _ _ _ hb]
      have hbb : (discoveredBase client apiKey == some b) = false := by
        simp [discoveredBase, hf, hb]
      simp [List.find?, hbb]

theorem processBatch_map_get (client : DifyClientOracle) :
    ∀ (apiKeys : List String) (st : BatchState) (b : String),
    assocGet (processBatchApiKeys client apiKeys st).workflowApiKeyMap b =
      ((apiKeys.reverse.find? fun k => discoveredBase client k == some b).or
        (assocGet st.workflowApiKeyMap b)) := by
  intro apiKeys
  induction apiKeys with
  | nil => intro st b; simp [processBatchApiKeys]
  | cons k ks ih =>
    intro st b
    rw [show processBatchApiKeys client (k :: ks) st =
      processBatchApiKeys client ks (processOneApiKey client st k) from rfl]
    rw [ih, processOneApiKey_map_get, List.reverse_cons, List.find?_append, Option.or_assoc]

theorem processBatch_keys_nodup (client : DifyClientOracle) :
    ∀ (apiKeys : List String) (st : BatchState),
    (assocKeys st.workflowApiKeyMap).Nodup →
    (assocKeys (processBatchApiKeys client apiKeys st).workflowApiKeyMap).Nodup := by
  intro apiKeys
  induction apiKeys with
  | nil => intro st h; exact h
  | cons k ks ih =>
    intro st h
    rw [show processBatchApiKeys client (k :: ks) st =
      processBatchApiKeys client ks (processOneApiKey client st k) from rfl]
    apply ih
    rcases hf : fetchWorkflowInfoWithKey client k with _ | r
    · simpa [processOneApiKey, hf] using h
    · simp only [processOneApiKey, hf]
      exact assocKeys_nodup_assocSet _ _ _ h

theorem processBatch_all_fail (client : DifyClientOracle) :
    ∀ (apiKeys : List String) (st : BatchState),
    (∀ k ∈ apiKeys, fetchWorkflowInfoWithKey client k = none) →
    processBatchApiKeys client apiKeys st =
      { st with failed := st.failed + apiKeys.length } := by
  intro apiKeys
  induction apiKeys with
  | nil => intro st _; simp [processBatchApiKeys]
  | cons k ks ih =>
    intro st h
    rw [show processBatchApiKeys client (k :: ks) st =
      processBatchApiKeys client ks (processOneApiKey client st k) from rfl]
    rw [show processOneApiKey client st k = { st with failed := st.failed + 1 } by
      simp [processOneApiKey, h k (by simp)]]
    rw [ih _ fun k0 hk0 => h k0 (by simp [hk0])]
    simp only [List.length_cons]
    congr 1
    omega


/-! ### find? decomposition helpers -/

theorem option_map_or {α β : Type} (f : α → β) (a b : Option α) :
    (a.or b).map f = (a.map f).or (b.map f) := by
  cases a <;> rfl

theorem find?_last {α : Type} (p : α → Bool) (l₁ : List α) (x : α) (l₂ : List α)
    (hx : p x = true) (h₂ : ∀ y ∈ l₂, p y = false) :
    (l₁ ++ x :: l₂).reverse.find? p = some x := by
  have h2none : l₂.reverse.find? p = none := by
    rw [List.find?_eq_none]
    intro y hy
    simp [h₂ y (List.mem_reverse.mp hy)]
  rw [List.reverse_append, List.reverse_cons, List.find?_append, List.find?_append,
    h2none, Option.none_or]
  simp [List.find?_cons, hx]

theorem find?_eq_some_decomp {α : Type} (p : α → Bool) :
    ∀ (l : List α) (a : α), l.find? p = some a →
    p a = true ∧ ∃ l₁ l₂, l = l₁ ++ a :: l₂ ∧ ∀ x ∈ l₁, p x = false := by
  intro l
  induction l with
  | nil => intro a h; simp at h
  | cons x xs ih =>
    intro a h
    rcases hx : p x with _ | _
    · rw [List.find?_cons, hx] at h
      obtain ⟨hpa, l₁, l₂, heq, hall⟩ := ih a h
      refine ⟨hpa, x :: l₁, l₂, by rw [heq]; rfl, ?_⟩
      intro y hy
      rcases List.mem_cons.mp hy with h1 | h1
      · rw [h1]; exact hx
      · exact hall y h1
    · rw [List.find?_cons, hx] at h
      have hxa : x = a := by injection h
      exact ⟨by rw [← hxa]; exact hx, [], xs, by rw [hxa]; rfl, by simp⟩

/-! ### Normalizer lookup lemmas -/

theorem extractParams_get :
    ∀ (ps : List DifyParameter) (props : List (String × PropEntry)) (req : List String)
      (n : String), n ≠ "" →
    assocGet (extractPropertiesFromParametersArray ps props req).1 n =
      (((ps.reverse.find? fun p => p.name == some n).map
        fun p => ({ type := strOrDefault p.type "string"
                    description := strOrDefault p.description "" } : PropEntry)).or
        (assocGet props n)) := by
  intro ps
  induction ps with
  | nil => intro props req n hn; simp [extractPropertiesFromParametersArray]
  | cons p ps ih =>
    intro props req n hn
    have hfold : extractPropertiesFromParametersArray (p :: ps) props req =
        extractPropertiesFromParametersArray ps (processParamEntry (props, req) p).1
          (processParamEntry (props, req) p).2 := rfl
    rw [hfold, ih (processParamEntry (props, req) p).1 (processParamEntry (props, req) p).2 n hn,
      List.reverse_cons, List.find?_append, option_map_or, Option.or_assoc]
    congr 1
    rcases hname : p.name with _ | m
    · simp [processParamEntry, hname, List.find?_cons]
    · by_cases hm : m = ""
      · subst hm
        have h2 : ("" == n) = false := by simpa using Ne.symm hn
        simp [processParamEntry, hname, List.find?_cons, h2]
      · have hstep1 : (processParamEntry (props, req) p).1 =
            assocSet props m { type := strOrDefault p.type "string"
                               description := strOrDefault p.description "" } := by
          simp [processParamEntry, hname, hm]
        by_cases hmn : m = n
        · subst hmn
          have hp : (p.name == some m) = true := by simp [hname]
          rw [hstep1, assocGet_assocSet_self]
          simp [List.find?_cons, hp]
        · have hp : (p.name == some n) = false := by simp [hname, hmn]
          rw [hstep1, assocGet_assocSet_ne _ _ _ _ hmn]
          simp [List.find?_cons, hp]

theorem extractForm_flat (form : List DifyInputComponent)
    (props : List (String × PropEntry)) (req : List String) :
    extractPropertiesFromUserInputForm form props req =
      form.flatten.foldl processFormEntry (props, req) := by
  rw [extractPropertiesFromUserInputForm, List.foldl_flatten]

theorem extractFormEntries_get :
    ∀ (es : List (String × DifyInputField)) (props : List (String × PropEntry))
      (req : List String) (n : String), n ≠ "" →
    assocGet (es.foldl processFormEntry (props, req)).1 n =
      (((es.reverse.find? fun e => e.2.«variable» == some n).map
        fun e => ({ type := componentParamType e.1
                    description := strOrDefault e.2.label n } : PropEntry)).or
        (assocGet props n)) := by
  intro es
  induction es with
  | nil => intro props req n hn; simp
  | cons e es ih =>
    intro es0props req n hn
    rw [List.foldl_cons,
      show processFormEntry (es0props, req) e =
        ((processFormEntry (es0props, req) e).1, (processFormEntry (es0props, req) e).2) from rfl,
      ih (processFormEntry (es0props, req) e).1 (processFormEntry (es0props, req) e).2 n hn,
      List.reverse_cons, List.find?_append, option_map_or, Option.or_assoc]
    congr 1
    rcases hvar : e.2.«variable» with _ | v
    · simp [processFormEntry, hvar, List.find?_cons]
    · by_cases hv : v = ""
      · subst hv
        have h2 : ("" == n) = false := by simpa using Ne.symm hn
        simp [processFormEntry, hvar, List.find?_cons, h2]
      · have hstep1 : (processFormEntry (es0props, req) e).1 =
            assocSet es0props v { type := componentParamType e.1
                                  description := strOrDefault e.2.label v } := by
          simp [processFormEntry, hvar, hv]
        by_cases hvn : v = n
        · subst hvn
          have hp : (e.2.«variable» == some v) = true := by simp [hvar]
          rw [hstep1, assocGet_assocSet_self]
          simp [List.find?_cons, hp]
        · have hp : (e.2.«variable» == some n) = false := by simp [hvar, hvn]
          rw [hstep1, assocGet_assocSet_ne _ _ _ _ hvn]
          simp [List.find?_cons, hp]

/-! ### Claim C5 — output extraction order -/

/-- C5 counterexample: the claim says the top-level `result` field is
extracted whenever it is present and `data.outputs` is absent,
"regardless of the field values themselves"; but for a response whose
`result` is the (falsy) empty string, the code returns the raw response
instead of the present `result` field. -/
theorem C5_counterexample :
    respFalsyResult.data = none ∧
    respFalsyResult.result = some (Json.str "") ∧
    extractOutputContent respFalsyResult = OutputContent.raw respFalsyResult ∧
    extractOutputContent respFalsyResult ≠ OutputContent.value (Json.str "") :=
  ⟨rfl, rfl, rfl, fun h => OutputContent.noConfusion h⟩

/-- C5 (amended): the extracted output is `data.outputs` when that
field is present *and truthy*, else the top-level `result` field when
present *and truthy*, else the raw response unchanged — JS truthiness,
not mere presence, decides each step of the fixed order. -/
theorem C5_amended_extraction (r : DifyWorkflowResponse) :
    (∀ o, (r.data.bind fun d => d.outputs) = some o → o.truthy →
      extractOutputContent r = OutputContent.value o) ∧
    (jsTruthyOpt (r.data.bind fun d => d.outputs) = false →
      ∀ j, r.result = some j → j.truthy →
      extractOutputContent r = OutputContent.value j) ∧
    (jsTruthyOpt (r.data.bind fun d => d.outputs) = false →
      jsTruthyOpt r.result = false →
      extractOutputContent r = OutputContent.raw r) := by
  refine ⟨?_, ?_, ?_⟩
  · intro o ho ht
    simp [extractOutputContent, ho, jsTruthyOpt, ht]
  · intro hfalse j hj ht
    have h2 : jsTruthyOpt r.result = true := by simp [jsTruthyOpt, hj, ht]
    simp [extractOutputContent, hfalse, h2, hj]
    simpa [jsTruthyOpt] using ht
  · intro h1 h2
    simp [extractOutputContent, h1, h2]

/-- C5 witness: a response with a truthy `result` and no `data` is
extracted to that `result` value. -/
theorem C5_amended_extraction_witness :
    extractOutputContent { data := none, result := some (Json.str "r") } =
      OutputContent.value (Json.str "r") :=
  (C5_amended_extraction { data := none, result := some (Json.str "r") }).2.1
    rfl (Json.str "r") rfl rfl

/-! ### Claim C8 — total discovery failure -/

/-- C8: for every configuration with a non-empty (and otherwise valid)
credential sequence, when the discovery fetch of every backend fails,
`fetchAllWorkflowInfo` fails with the no-backends-available error and
the name-to-credential map stays empty: no tool is registered. -/
theorem C8_all_backends_fail (client : DifyClientOracle) (config : Config)
    (hne : config.apiKeys ≠ []) (hurl : config.baseUrl ≠ "")
    (hfail : ∀ k ∈ config.apiKeys, fetchWorkflowInfoWithKey client k = none) :
    fetchAllWorkflowInfo client config [] =
      (Except.error ServiceError.noBackendsAvailable, []) := by
  have hvalid : config.validate = true := by
    simp [Config.validate, hurl, List.isEmpty_iff, hne]
  have hbatch := processBatch_all_fail client config.apiKeys
    { workflowApiKeyMap := [], results := [], success := 0, failed := 0 } hfail
  simp [fetchAllWorkflowInfo, hvalid, hbatch, List.isEmpty_iff, hne]

/-- C8 witness: two credentials whose every fetch fails produce the
aggregate error and an empty map. -/
theorem C8_all_backends_fail_witness :
    fetchAllWorkflowInfo clientDown configTwoKeys [] =
      (Except.error ServiceError.noBackendsAvailable, []) :=
  C8_all_backends_fail clientDown configTwoKeys (by decide) (by decide) (by decide)

/-! ### Claim C9 — credential redaction -/

/-- C9: the redacted credential is the fixed all-asterisk placeholder
for credentials of 8 characters or fewer, and otherwise consists of the
first 4 and last 4 characters (around the fixed `"..."` separator); the
connector failure diagnostics depend on the credential only through its
redacted form, so they never contain the credential unredacted. -/
theorem C9_mask_redaction :
    (∀ apiKey : String, apiKey.length ≤ 8 → maskApiKey apiKey = "********") ∧
    (∀ apiKey : String, 8 < apiKey.length →
      (maskApiKey apiKey).data =
        apiKey.data.take 4 ++ ['.', '.', '.'] ++
          apiKey.data.drop (apiKey.data.length - 4)) ∧
    (∀ (endpoint : String) (status : Nat) (statusText errorText k₁ k₂ : String),
      maskApiKey k₁ = maskApiKey k₂ →
      handleApiResponseErrorLogs endpoint status statusText errorText k₁ =
        handleApiResponseErrorLogs endpoint status statusText errorText k₂) := by
  refine ⟨?_, ?_, ?_⟩
  · intro apiKey h
    simp [maskApiKey, h]
  · intro apiKey h
    rw [maskApiKey, if_neg (by omega)]
    simp [String.data_append]
  · intro endpoint status statusText errorText k₁ k₂ h
    simp [handleApiResponseErrorLogs, h]

/-- C9 witness: a short credential masks to the placeholder; a long one
keeps exactly its first and last 4 characters around the separator. -/
theorem C9_mask_redaction_witness :
    maskApiKey "secret" = "********" ∧
    (maskApiKey "app-0123456789").data =
      "app-0123456789".data.take 4 ++ ['.', '.', '.'] ++
        "app-0123456789".data.drop ("app-0123456789".data.length - 4) :=
  ⟨C9_mask_redaction.1 "secret" (by decide),
   C9_mask_redaction.2.1 "app-0123456789" (by decide)⟩

/-! ### Claim C10 — missing arguments -/

/-- C10: a call-tool request whose `arguments` field is absent fails
with the missing-arguments error carrying the raw request, and never
delegates to the registry (the delegation trace is empty, whatever the
executor would do). -/
theorem C10_missing_arguments
    (exec : String → List (String × Json) → Option OutputContent)
    (request : CallToolRequest) (h : request.arguments = none) :
    handleCallToolRequest exec request =
      (Except.error (CallToolError.missingArguments request.name request), []) := by
  simp [handleCallToolRequest, h]

/-- C10 witness: a concrete argument-less request fails without any
delegation. -/
theorem C10_missing_arguments_witness :
    ({ name := "t", arguments := none } : CallToolRequest).arguments = none ∧
    handleCallToolRequest (fun _ _ => none) { name := "t", arguments := none } =
      (Except.error
        (CallToolError.missingArguments "t" { name := "t", arguments := none }), []) :=
  ⟨rfl, C10_missing_arguments _ _ rfl⟩


/-! ### Claim C6 — component-kind type mapping -/

/-- C6: for a form-shape component entry, the normalized property type
is `"array"` for kind `checkbox`, `"number"` for kinds `number` and
`slider`, `"boolean"` for kind `switch`, `"string"` for `select`,
`radio` and every unknown kind; for a legacy-shape entry the normalized
type equals the declared type when (truthily) present and `"string"`
otherwise. -/
theorem C6_type_mapping :
    (∀ (kind : String) (field : DifyInputField) (props : List (String × PropEntry))
       (req : List String) (v : String),
      field.«variable» = some v → v ≠ "" →
      ((kind = "checkbox" →
        (assocGet (extractPropertiesFromUserInputForm [[(kind, field)]] props req).1 v).map
          PropEntry.type = some "array") ∧
       ((kind = "number" ∨ kind = "slider") →
        (assocGet (extractPropertiesFromUserInputForm [[(kind, field)]] props req).1 v).map
          PropEntry.type = some "number") ∧
       (kind = "switch" →
        (assocGet (extractPropertiesFromUserInputForm [[(kind, field)]] props req).1 v).map
          PropEntry.type = some "boolean") ∧
       ((kind = "select" ∨ kind = "radio") →
        (assocGet (extractPropertiesFromUserInputForm [[(kind, field)]] props req).1 v).map
          PropEntry.type = some "string") ∧
       (kind ∉ (["select", "radio", "checkbox", "number", "slider", "switch"] : List String) →
        (assocGet (extractPropertiesFromUserInputForm [[(kind, field)]] props req).1 v).map
          PropEntry.type = some "string"))) ∧
    (∀ (param : DifyParameter) (props : List (String × PropEntry)) (req : List String)
       (n : String),
      param.name = some n → n ≠ "" →
      ((∀ t, param.type = some t → t ≠ "" →
        (assocGet (extractPropertiesFromParametersArray [param] props req).1 n).map
          PropEntry.type = some t) ∧
       (param.type = none →
        (assocGet (extractPropertiesFromParametersArray [param] props req).1 n).map
          PropEntry.type = some "string"))) := by
  constructor
  · intro kind field props req v hvar hv
    have hbase : assocGet (extractPropertiesFromUserInputForm [[(kind, field)]] props req).1 v =
        some { type := componentParamType kind
               description := strOrDefault field.label v } := by
      have h1 : extractPropertiesFromUserInputForm [[(kind, field)]] props req =
          processFormEntry (props, req) (kind, field) := rfl
      rw [h1]
      simp only [processFormEntry, hvar]
      rw [if_neg (by simpa using hv)]
      exact assocGet_assocSet_self props v _
    refine ⟨?_, ?_, ?_, ?_, ?_⟩
    · intro hk
      subst hk
      rw [hbase]
      rfl
    · intro hk
      rcases hk with hk | hk <;> (subst hk; rw [hbase]; rfl)
    · intro hk
      subst hk
      rw [hbase]
      rfl
    · intro hk
      rcases hk with hk | hk <;> (subst hk; rw [hbase]; rfl)
    · intro hk
      simp only [List.mem_cons, List.not_mem_nil, or_false, not_or] at hk
      obtain ⟨h1, h2, h3, h4, h5, h6⟩ := hk
      have hc : componentParamType kind = "string" := by
        simp [componentParamType, h1, h2, h3, h4, h5, h6]
      rw [hbase, hc]
      rfl
  · intro param props req n hname hn
    have hbase : assocGet (extractPropertiesFromParametersArray [param] props req).1 n =
        some { type := strOrDefault param.type "string"
               description := strOrDefault param.description "" } := by
      have h1 : extractPropertiesFromParametersArray [param] props req =
          processParamEntry (props, req) param := rfl
      rw [h1]
      simp only [processParamEntry, hname]
      rw [if_neg (by simpa using hn)]
      exact assocGet_assocSet_self props n _
    constructor
    · intro t ht htne
      rw [hbase]
      simp [strOrDefault, ht, htne]
    · intro ht
      rw [hbase]
      simp [strOrDefault, ht]

/-- C6 witness: a required `checkbox` component named `tags` is
normalized with type `"array"`. -/
theorem C6_type_mapping_witness :
    (assocGet (extractPropertiesFromUserInputForm
      [[("checkbox", { label := some "Tags", «variable» := some "tags", required := true })]]
      [] []).1 "tags").map PropEntry.type = some "array" :=
  (C6_type_mapping.1 "checkbox"
    { label := some "Tags", «variable» := some "tags", required := true }
    [] [] "tags" rfl (by decide)).1 rfl

/-! ### Claim C7 — duplicate parameter names -/

/-- C7 counterexample: the claim says the first occurrence of a
duplicated parameter name wins; but for a legacy schema declaring `q`
twice, the normalized entry for `q` carries the type and description of
the *later* entry, which differ from the earlier entry's. -/
theorem C7_counterexample :
    assocGet (extractPropertiesFromParametersArray
      [ { name := some "q", type := some "string", description := some "first" },
        { name := some "q", type := some "number", description := some "second" } ] [] []).1 "q"
      = some { type := "number", description := "second" } ∧
    ({ type := "number", description := "second" } : PropEntry) ≠
      { type := "string", description := "first" } := by
  constructor
  · decide
  · decide

/-- C7 (amended): when the same parameter name occurs in two entries,
the *last* occurrence wins — object property assignment overwrites, so
the normalized properties entry carries the type and description of the
later entry; this holds in both the legacy array shape and the form
shape. -/
theorem C7_amended_last_wins :
    (∀ (pre mid post : List DifyParameter) (p₁ p₂ : DifyParameter) (n : String),
      n ≠ "" → p₁.name = some n → p₂.name = some n →
      (∀ p ∈ post, p.name ≠ some n) →
      assocGet (extractPropertiesFromParametersArray
          (pre ++ p₁ :: (mid ++ p₂ :: post)) [] []).1 n =
        some { type := strOrDefault p₂.type "string"
               description := strOrDefault p₂.description "" }) ∧
    (∀ (form : List DifyInputComponent) (pre mid post : List (String × DifyInputField))
       (e₁ e₂ : String × DifyInputField) (n : String),
      n ≠ "" → e₁.2.«variable» = some n → e₂.2.«variable» = some n →
      (∀ e ∈ post, e.2.«variable» ≠ some n) →
      form.flatten = pre ++ e₁ :: (mid ++ e₂ :: post) →
      assocGet (extractPropertiesFromUserInputForm form [] []).1 n =
        some { type := componentParamType e₂.1
               description := strOrDefault e₂.2.label n }) := by
  constructor
  · intro pre mid post p₁ p₂ n hn h₁ h₂ hpost
    rw [extractParams_get _ _ _ _ hn]
    have hlist : pre ++ p₁ :: (mid ++ p₂ :: post) = (pre ++ p₁ :: mid) ++ p₂ :: post := by
      simp
    rw [hlist, find?_last _ (pre ++ p₁ :: mid) p₂ post (by simp [h₂])
      (fun y hy => by simpa using hpost y hy)]
    rfl
  · intro form pre mid post e₁ e₂ n hn h₁ h₂ hpost hflat
    rw [extractForm_flat, hflat, extractFormEntries_get _ _ _ _ hn]
    have hlist : pre ++ e₁ :: (mid ++ e₂ :: post) = (pre ++ e₁ :: mid) ++ e₂ :: post := by
      simp
    rw [hlist, find?_last _ (pre ++ e₁ :: mid) e₂ post (by simp [h₂])
      (fun y hy => by simpa using hpost y hy)]
    rfl

/-- C7 witness: the duplicate-name schema from the counterexample,
resolved by the amended rule to the later entry. -/
theorem C7_amended_last_wins_witness :
    assocGet (extractPropertiesFromParametersArray
      [ { name := some "q", type := some "string", description := some "first" },
        { name := some "q", type := some "number", description := some "second" } ] [] []).1 "q"
      = some { type := "number", description := "second" } :=
  C7_amended_last_wins.1 [] [] []
    { name := some "q", type := some "string", description := some "first", required := false }
    { name := some "q", type := some "number", description := some "second", required := false }
    "q" (by decide) rfl rfl (by simp)


/-! ### Claim C1 — registry map contents after discovery -/

/-- C1 counterexample: two backends are both successfully discovered
under the same descriptor name `"foo"`, yet the registry map holds a
single entry, keyed by the base name with the later credential — not
one entry per backend, and never the suffixed key `"foo-1"` the claim
requires. -/
theorem C1_counterexample :
    (processBatchApiKeys clientFoo ["k1", "k2"] initialBatchState).results.length = 2 ∧
    (processBatchApiKeys clientFoo ["k1", "k2"] initialBatchState).workflowApiKeyMap =
      [("foo", "k2")] ∧
    assocGet (processBatchApiKeys clientFoo ["k1", "k2"] initialBatchState).workflowApiKeyMap
      "foo-1" = none := by
  refine ⟨by decide, by decide, by decide⟩

/-- C1 (amended): after a discovery pass in which every backend
succeeds, the registry map holds exactly one entry per *distinct base
descriptor name*, keyed by the base name (suffixed tool names never
appear as keys); when base names collide, the entry holds the
credential of the last-discovered backend with that base name. -/
theorem C1_amended_registry (client : DifyClientOracle) (apiKeys : List String)
    (_hsucc : ∀ k ∈ apiKeys, (fetchWorkflowInfoWithKey client k).isSome) :
    (assocKeys (processBatchApiKeys client apiKeys
      initialBatchState).workflowApiKeyMap).Nodup ∧
    (∀ b, b ∈ assocKeys (processBatchApiKeys client apiKeys
        initialBatchState).workflowApiKeyMap ↔
      ∃ k ∈ apiKeys, discoveredBase client k = some b) ∧
    (∀ b k, assocGet (processBatchApiKeys client apiKeys
        initialBatchState).workflowApiKeyMap b = some k →
      discoveredBase client k = some b ∧
      ∃ pre post, apiKeys = pre ++ k :: post ∧
        ∀ k0 ∈ post, discoveredBase client k0 ≠ some b) := by
  refine ⟨?_, ?_, ?_⟩
  · exact processBatch_keys_nodup client apiKeys initialBatchState
      (by simp [initialBatchState, assocKeys])
  · intro b
    rw [← assocGet_isSome_iff, processBatch_map_get]
    have hempty : assocGet initialBatchState.workflowApiKeyMap b = none := rfl
    rw [hempty, Option.or_none, List.find?_isSome]
    constructor
    · rintro ⟨k, hk, hp⟩
      exact ⟨k, List.mem_reverse.mp hk, by simpa using hp⟩
    · rintro ⟨k, hk, hp⟩
      exact ⟨k, List.mem_reverse.mpr hk, by simpa using hp⟩
  · intro b k hget
    rw [processBatch_map_get] at hget
    have hempty : assocGet initialBatchState.workflowApiKeyMap b = none := rfl
    rw [hempty, Option.or_none] at hget
    obtain ⟨hp, l₁, l₂, heq, hall⟩ := find?_eq_some_decomp _ apiKeys.reverse k hget
    refine ⟨by simpa using hp, l₂.reverse, l₁.reverse, ?_, ?_⟩
    · have := congrArg List.reverse heq
      simpa [List.reverse_append] using this
    · intro k0 hk0
      have := hall k0 (List.mem_reverse.mp hk0)
      simpa using this

/-- C1 witness: the duplicate-name discovery of the counterexample,
read through the amended invariants. -/
theorem C1_amended_registry_witness :
    (assocKeys (processBatchApiKeys clientFoo ["k1", "k2"]
      initialBatchState).workflowApiKeyMap).Nodup ∧
    ("foo" ∈ assocKeys (processBatchApiKeys clientFoo ["k1", "k2"]
        initialBatchState).workflowApiKeyMap ↔
      ∃ k ∈ ["k1", "k2"], discoveredBase clientFoo k = some "foo") :=
  ⟨(C1_amended_registry clientFoo ["k1", "k2"] (by decide)).1,
   (C1_amended_registry clientFoo ["k1", "k2"] (by decide)).2.1 "foo"⟩

/-! ### Claim C2 — unknown-tool lookup -/

/-- C2 counterexample: the tool name `"foo-1"` has no registered
credential, yet invocation does not fail — the hyphen-stripping
resolution routes it to the credential registered under `"foo"` and the
Connector *is* called, refuting both the unknown-tool guarantee and the
exact-lookup-only guarantee. -/
theorem C2_counterexample :
    assocGet [("foo", "k")] "foo-1" = none ∧
    (runWorkflow (fun _ => some 0) [("foo", "k")] "foo-1").2 =
      [ServiceEvent.clientRunWorkflow "k"] := by
  refine ⟨by decide, by decide⟩

/-- C2 (amended): invocation fails with the workflow-not-found error —
without calling the Connector — exactly when credential resolution
yields no truthy credential, where resolution first looks up the
hyphen-stripped base of the tool name and then falls back to the exact
name; when the base-name lookup yields a truthy credential the
Connector is called with it (renaming tolerance). -/
theorem C2_amended_lookup {ρ : Type} (runOracle : String → Option ρ)
    (m : List (String × String)) (w : String) :
    ((getApiKeyForWorkflow m w = none ∨ getApiKeyForWorkflow m w = some "") →
      runWorkflow runOracle m w =
        (Except.error (ServiceError.workflowNotFound w), [])) ∧
    (∀ k, k ≠ "" → assocGet m (splitBaseName w) = some k →
      (runWorkflow runOracle m w).2 = [ServiceEvent.clientRunWorkflow k]) := by
  constructor
  · intro h
    rcases h with h | h
    · simp [runWorkflow, h]
    · simp [runWorkflow, h]
  · intro k hk hbase
    have hapi : getApiKeyForWorkflow m w = some k := by
      rw [getApiKeyForWorkflow, hbase]
      simp [jsOrStr, hk]
    rcases ho : runOracle k with _ | resp <;> simp [runWorkflow, hapi, hk, ho]

/-- C2 witness: a name resolving to nothing fails with the
workflow-not-found error and an empty call trace. -/
theorem C2_amended_lookup_witness :
    getApiKeyForWorkflow [("foo", "k")] "bar" = none ∧
    runWorkflow (fun _ => some 0) [("foo", "k")] "bar" =
      (Except.error (ServiceError.workflowNotFound "bar"), []) :=
  ⟨by decide, (C2_amended_lookup (fun _ => some 0) [("foo", "k")] "bar").1 (Or.inl (by decide))⟩

/-! ### Claim C3 — tool-list name uniqueness and suffixing -/

/-- C3: no two entries of a produced tool list share a name; and when a
later backend reports a base name already reported earlier, its tool
name is exactly the base name with the first unused integer suffix
(`<base>-1` when `<base>-1` is not already taken). -/
theorem C3_unique_names : ∀ (wdl : List WorkflowData),
    (toolNames wdl).Nodup ∧
    (∀ (wd : WorkflowData) (b : String), baseNameOf wd = b →
      (∃ wd0 ∈ wdl, baseNameOf wd0 = b) →
      ∃ k, 1 ≤ k ∧
        toolNames (wdl ++ [wd]) = toolNames wdl ++ [suffixedName b k] ∧
        suffixedName b k ∉ toolNames wdl ∧
        (∀ j, 1 ≤ j → j < k → suffixedName b j ∈ toolNames wdl) ∧
        (suffixedName b 1 ∉ toolNames wdl → k = 1)) := by
  intro wdl
  constructor
  · exact toolNames_nodup wdl
  · intro wd b hb hdup
    obtain ⟨wd0, hmem, hb0⟩ := hdup
    have hbmem : b ∈ toolNames wdl := by
      rw [← hb0]
      exact base_mem_toolNames wdl wd0 hmem
    obtain ⟨k, hk1, huniq, hfree, hmin⟩ := getUniqueWorkflowName_of_mem b (toolNames wdl) hbmem
    refine ⟨k, hk1, ?_, hfree, hmin, ?_⟩
    · have happ : convertAcc (wdl ++ [wd]) = convertStep (convertAcc wdl) wd := by
        rw [convertAcc, List.foldl_append]
        rfl
      have hnames : toolNames (wdl ++ [wd]) =
          (convertStep (convertAcc wdl) wd).1.map Tool.name := by
        rw [toolNames, convertDifyWorkflowToMCPTools, happ]
      rw [hnames, convertStep_fst, List.map_append]
      have h1 : (convertAcc wdl).1.map Tool.name = toolNames wdl := rfl
      rw [h1, convertAcc_snd, hb, huniq]
      rfl
    · intro h1free
      by_contra hk
      have h2 : 1 < k := by omega
      exact h1free (hmin 1 le_rfl h2)

/-- C3 witness: two backends both named `"foo"`; the second tool is
named `"foo-1"`. -/
theorem C3_unique_names_witness :
    toolNames [wdFoo, wdFoo] = toolNames [wdFoo] ++ [suffixedName "foo" 1] := by
  obtain ⟨k, hk1, heq, hfree, hmin, hone⟩ :=
    (C3_unique_names [wdFoo]).2 wdFoo "foo" (by decide) ⟨wdFoo, by simp, by decide⟩
  have hk : k = 1 := hone (by decide)
  rw [hk] at heq
  exact heq

/-! ### Claim C4 — collision routing to the last credential -/

/-- C4 counterexample: two backends share the hyphenated descriptor
name `"my-flow"`; both are discovered, the map holds the later
credential under the base name, yet invoking the suffixed variant
`"my-flow-1"` does not route anywhere: hyphen stripping looks up
`"my"`, the exact fallback misses, and the call fails with an empty
trace. -/
theorem C4_counterexample :
    (processBatchApiKeys clientMyFlow ["k1", "k2"] initialBatchState).results.length = 2 ∧
    assocGet (processBatchApiKeys clientMyFlow ["k1", "k2"]
      initialBatchState).workflowApiKeyMap "my-flow" = some "k2" ∧
    suffixedName "my-flow" 1 = "my-flow-1" ∧
    (runWorkflow (fun _ => some 0) (processBatchApiKeys clientMyFlow ["k1", "k2"]
      initialBatchState).workflowApiKeyMap "my-flow-1").2 = [] ∧
    (runWorkflow (fun _ => some 0) (processBatchApiKeys clientMyFlow ["k1", "k2"]
      initialBatchState).workflowApiKeyMap "my-flow-1").1 =
      Except.error (ServiceError.workflowNotFound "my-flow-1") := by
  refine ⟨by decide, by decide, by decide, by decide, rfl⟩

/-- C4 (amended): when the shared base name contains no hyphen, the
map holds the credential of the last-discovered backend under the base name,
and invoking either the base-named tool or its `-1`-suffixed variant
calls the Connector with that last credential (never the earlier
one). -/
theorem C4_amended_routing {ρ : Type} (runOracle : String → Option ρ)
    (client : DifyClientOracle) (pre post : List String) (k₂ b : String)
    (hbase : discoveredBase client k₂ = some b)
    (hpost : ∀ k ∈ post, discoveredBase client k ≠ some b)
    (hk : k₂ ≠ "") (hhyph : '-' ∉ b.data) :
    assocGet (processBatchApiKeys client (pre ++ k₂ :: post)
        initialBatchState).workflowApiKeyMap b = some k₂ ∧
    (runWorkflow runOracle (processBatchApiKeys client (pre ++ k₂ :: post)
        initialBatchState).workflowApiKeyMap b).2 =
      [ServiceEvent.clientRunWorkflow k₂] ∧
    (runWorkflow runOracle (processBatchApiKeys client (pre ++ k₂ :: post)
        initialBatchState).workflowApiKeyMap (suffixedName b 1)).2 =
      [ServiceEvent.clientRunWorkflow k₂] := by
  have hget : assocGet (processBatchApiKeys client (pre ++ k₂ :: post)
      initialBatchState).workflowApiKeyMap b = some k₂ := by
    rw [processBatch_map_get,
      find?_last _ pre k₂ post (by simp [hbase]) (fun y hy => by simpa using hpost y hy)]
    rfl
  have hroute : ∀ w, splitBaseName w = b →
      (runWorkflow runOracle (processBatchApiKeys client (pre ++ k₂ :: post)
        initialBatchState).workflowApiKeyMap w).2 =
      [ServiceEvent.clientRunWorkflow k₂] := by
    intro w hw
    have hapi : getApiKeyForWorkflow (processBatchApiKeys client (pre ++ k₂ :: post)
        initialBatchState).workflowApiKeyMap w = some k₂ := by
      rw [getApiKeyForWorkflow, hw, hget]
      simp [jsOrStr, hk]
    rcases ho : runOracle k₂ with _ | resp <;> simp [runWorkflow, hapi, hk, ho]
  exact ⟨hget, hroute b (splitBaseName_eq_self b hhyph),
    hroute _ (splitBaseName_suffixed b 1 hhyph)⟩

/-- C4 witness: two backends named `"foo"` (no hyphen); invoking
`"foo"` or `"foo-1"` both call the Connector with the second
credential. -/
theorem C4_amended_routing_witness :
    assocGet (processBatchApiKeys clientFoo ["k1", "k2"]
      initialBatchState).workflowApiKeyMap "foo" = some "k2" ∧
    (runWorkflow (fun _ => some 0) (processBatchApiKeys clientFoo ["k1", "k2"]
      initialBatchState).workflowApiKeyMap "foo").2 =
      [ServiceEvent.clientRunWorkflow "k2"] ∧
    (runWorkflow (fun _ => some 0) (processBatchApiKeys clientFoo ["k1", "k2"]
      initialBatchState).workflowApiKeyMap (suffixedName "foo" 1)).2 =
      [ServiceEvent.clientRunWorkflow "k2"] :=
  C4_amended_routing (fun _ => some 0) clientFoo ["k1"] [] "k2" "foo"
    (by decide) (by simp) (by decide) (by decide)


end DifyMCP
